import Mathlib

/-!
Verification of the pyLucyReader plate-reader data model against its
natural-language specification.  The relevant program fragments are given a
shallow embedding: pure helper functions of `src/base/util.py` become Lean
functions over `List Char` / `Int`, tables become association lists from well
coordinates to rows of optional rational cell values, and fallible
constructors return `Except`.
-/

namespace PyLucy

/-! ### Character classes

The regexes of the program use the ASCII classes `[A-Za-z]` (with the
IGNORECASE flag the class `[a-z]` is exactly this set) and `[0-9]`. -/

/-- The class `[A-Za-z]`: ASCII letters. -/
def isLetter (c : Char) : Bool :=
  decide ((65 ≤ c.toNat ∧ c.toNat ≤ 90) ∨ (97 ≤ c.toNat ∧ c.toNat ≤ 122))

/-- The class `[0-9]`: ASCII digits. -/
def isDigitC (c : Char) : Bool :=
  decide (48 ≤ c.toNat ∧ c.toNat ≤ 57)

/-- Value of a decimal digit string, as computed by the int constructor
(leading zeros permitted). -/
def natOfDigits (cs : List Char) : Nat :=
  cs.foldl (fun a c => a * 10 + (c.toNat - 48)) 0

/-! ### Well codec (`src/base/util.py`, `strpwell`)

`strpwell` applies `re.match` with the pattern `([a-z]+)([0-9]+)` under
IGNORECASE.  `re.match` anchors only at the start: it matches a prefix of the
input.  With backtracking, the prefix match succeeds exactly when the string
starts with one or more letters followed immediately by one or more digits,
and the two greedy groups then capture the maximal letter run and the maximal
digit run after it.  On failure a `KeyError(w)` is raised, modelled as
`Except.error w`.  The `isinstance(w, str)` guard is vacuous here because the
embedded input type is `String`. -/

def strpwell (w : String) : Except String (String × Nat) :=
  let cs := w.toList
  let row := cs.takeWhile isLetter
  let rest := cs.dropWhile isLetter
  let col := rest.takeWhile isDigitC
  if row = [] ∨ col = [] then .error w
  else .ok (row.asString, natOfDigits col)

/-- Well formatting as in `WellAccessor.__repr__` (`src/base/accessors.py`):
the row letters concatenated with the decimal form of the column number. -/
def wellRepr (p : String × Nat) : String := p.1 ++ toString p.2

/-- The anchored well pattern of the specification, `^[A-Za-z]+[0-9]+$`,
as a whole-string test (the quantifier domain of claims C5 and C6). -/
def wellPattern (s : String) : Bool :=
  let cs := s.toList
  let row := cs.takeWhile isLetter
  let rest := cs.dropWhile isLetter
  let col := rest.takeWhile isDigitC
  !row.isEmpty && !col.isEmpty && (rest.dropWhile isDigitC).isEmpty

/-! Supporting lemmas about `takeWhile` and `dropWhile` on a decomposed
list, used to evaluate `strpwell` on strings of the shape
letters ++ digits (++ rest). -/

theorem takeWhile_append_all {p : Char → Bool} :
    ∀ {a b : List Char}, (∀ c ∈ a, p c = true) →
      (∀ c, b.head? = some c → p c = false) →
      (a ++ b).takeWhile p = a ∧ (a ++ b).dropWhile p = b := by
  intro a
  induction a with
  | nil =>
    intro b _ hb
    cases b with
    | nil => simp
    | cons c cs =>
      have hc : p c = false := hb c rfl
      simp [List.takeWhile, List.dropWhile, hc]
  | cons c cs ih =>
    intro b ha hb
    have hc : p c = true := ha c (by simp)
    have := ih (fun x hx => ha x (by simp [hx])) hb
    simp [List.takeWhile, List.dropWhile, hc, this.1, this.2]

theorem isDigitC_not_isLetter {c : Char} (h : isDigitC c = true) :
    isLetter c = false := by
  simp only [isDigitC, decide_eq_true_eq] at h
  simp only [isLetter, decide_eq_false_iff_not]
  omega

/-- Evaluation of `strpwell` on a string that begins with a nonempty letter
run followed by a nonempty digit run (and possibly further characters that
are not digits at the junction point handled by `takeWhile`). -/
theorem strpwell_eval {s : String} {a b rest : List Char}
    (hs : s.toList = a ++ (b ++ rest)) (ha : a ≠ []) (hb : b ≠ [])
    (hla : ∀ c ∈ a, isLetter c = true) (hlb : ∀ c ∈ b, isDigitC c = true)
    (hrest : ∀ c, rest.head? = some c → isDigitC c = false) :
    strpwell s = .ok (a.asString, natOfDigits b) := by
  have hbd : ∀ c, (b ++ rest).head? = some c → isLetter c = false := by
    intro c hc
    cases b with
    | nil => exact absurd rfl hb
    | cons x xs =>
      simp only [List.cons_append, List.head?_cons, Option.some.injEq] at hc
      subst hc
      exact isDigitC_not_isLetter (hlb x (by simp))
  have h1 := takeWhile_append_all hla hbd
  have h2 := takeWhile_append_all hlb hrest
  have hcond : ¬(a = [] ∨ b = []) := by
    rintro (h | h) <;> [exact ha h; exact hb h]
  simp only [strpwell, hs, h1.1, h1.2, h2.1]
  rw [if_neg hcond]

/-- Case normalization of a string, as a list of lower-cased character
codes (used only to state case-insensitive inequality of well strings). -/
def caseNormalized (s : String) : List Nat :=
  s.toList.map (fun c =>
    if 65 ≤ c.toNat ∧ c.toNat ≤ 90 then c.toNat + 32 else c.toNat)

/-- C5 counterexample: the string A01 matches the anchored well pattern, but
the parse/format round trip yields A1, which differs from A01 even after
case-normalizing the row letters. -/
theorem well_roundtrip_cex :
    wellPattern "A01" = true ∧ strpwell "A01" = .ok ("A", 1) ∧
    wellRepr ("A", 1) = "A1" ∧ ("A1" : String) ≠ "A01" ∧
    caseNormalized "A1" ≠ caseNormalized "A01" := by
  refine ⟨by decide, by rfl, by rfl, by decide, by decide⟩

/-- C5 (amended): for a well string consisting of a nonempty letter run
followed by a nonempty digit run, `strpwell` returns the letter run verbatim
together with the numeric value of the digit run, and formatting the pair
reproduces the string exactly — provided the digit run is the canonical
decimal form of its value (no leading zeros).  No case normalization is
involved: the row letters are preserved verbatim. -/
theorem well_roundtrip_amended (s : String) (a b : List Char)
    (hs : s.toList = a ++ b) (ha : a ≠ []) (hb : b ≠ [])
    (hla : ∀ c ∈ a, isLetter c = true) (hlb : ∀ c ∈ b, isDigitC c = true)
    (hcanon : toString (natOfDigits b) = b.asString) :
    strpwell s = .ok (a.asString, natOfDigits b) ∧
    wellRepr (a.asString, natOfDigits b) = s := by
  have hs' : s.toList = a ++ (b ++ []) := by simpa using hs
  have h1 : strpwell s = .ok (a.asString, natOfDigits b) :=
    strpwell_eval hs' ha hb hla hlb (by intro c hc; cases hc)
  refine ⟨h1, ?_⟩
  have hdata : s.data = a ++ b := hs
  unfold wellRepr
  rw [hcanon]
  cases s with
  | mk data =>
    simp only [String.data] at hdata
    subst hdata
    rfl

/-- C5 witness: round trip at the concrete valid well string AB12. -/
theorem well_roundtrip_amended_witness :
    strpwell "AB12" = .ok ("AB", 12) ∧ wellRepr ("AB", 12) = "AB12" := by
  have h := well_roundtrip_amended "AB12" ['A', 'B'] ['1', '2']
    (by decide) (by decide) (by decide) (by decide) (by decide) (by decide)
  exact h

/-- C6 counterexample: A1B fails the anchored pattern of the spec, yet
`strpwell` returns a parsed value (the prefix A1) instead of raising a
`KeyError`. -/
theorem well_keyerror_cex :
    wellPattern "A1B" = false ∧ strpwell "A1B" = .ok ("A", 1) := by
  exact ⟨by decide, by rfl⟩

/-- C6 (amended): `strpwell` matches the well pattern against a prefix of its
input.  A `KeyError` (carrying the key) is raised — and no value returned —
exactly for strings with no prefix of one or more letters followed by one or
more digits; a string that merely fails the anchored pattern but has such a
prefix is parsed instead of raising. -/
theorem well_keyerror_amended (w : String)
    (h : ¬ ∃ a b rest, w.toList = a ++ b ++ rest ∧ a ≠ [] ∧ b ≠ [] ∧
      (∀ c ∈ a, isLetter c = true) ∧ (∀ c ∈ b, isDigitC c = true)) :
    strpwell w = .error w := by
  unfold strpwell
  by_cases hc : w.toList.takeWhile isLetter = [] ∨
      (w.toList.dropWhile isLetter).takeWhile isDigitC = []
  · simp only [hc, if_true]
  · exfalso
    push_neg at hc
    apply h
    refine ⟨w.toList.takeWhile isLetter,
      (w.toList.dropWhile isLetter).takeWhile isDigitC,
      (w.toList.dropWhile isLetter).dropWhile isDigitC, ?_, hc.1, hc.2, ?_, ?_⟩
    · rw [List.append_assoc, List.takeWhile_append_dropWhile,
        List.takeWhile_append_dropWhile]
    · intro c hcm
      exact List.mem_takeWhile_imp hcm
    · intro c hcm
      exact List.mem_takeWhile_imp hcm

/-- C6 witness: the string 123 has no letter prefix, and `strpwell` raises
the key error on it. -/
theorem well_keyerror_amended_witness : strpwell "123" = .error "123" := by
  apply well_keyerror_amended
  rintro ⟨a, b, rest, heq, ha, _, hla, _⟩
  cases a with
  | nil => exact ha rfl
  | cons c cs =>
    have hc : c = '1' := by
      have : "123".toList = '1' :: "23".toList := by decide
      rw [this] at heq
      exact (by simpa using congrArg List.head? heq : '1' = c).symm
    have := hla c (by simp)
    rw [hc] at this
    simp [isLetter] at this

/-! ### Duration codec (`src/base/util.py`)

A Python `timedelta` is modelled by its total signed length in microseconds
(`timedelta` stores exactly microsecond resolution).  The attributes `days`
and `seconds` of a normalized `timedelta` are floor divisions, which for the
positive divisors used here coincide with Euclidean division on `Int`. -/

/-- `td.days` of a timedelta of `us` microseconds. -/
def tdDays (us : Int) : Int := us.ediv 86400000000

/-- `td.seconds` of a timedelta of `us` microseconds. -/
def tdSeconds (us : Int) : Int := (us.ediv 1000000).emod 86400

/-- `strffdelta` composed with `strfdelta`: the four fixed templates of
`strffdelta` applied to the `D`/`H`/`M`/`S` components that `strfdelta`
computes by `divmod(td.seconds, 3600)` and `divmod(rem, 60)`.  Note the
strict comparisons and that the sub-minute template prints only the `S`
component, exactly as in the source. -/
def strffdelta (td : Int) : String :=
  let D := tdDays td
  let secs := tdSeconds td
  let H := secs.ediv 3600
  let rem := secs.emod 3600
  let M := rem.ediv 60
  let S := rem.emod 60
  if 0 < D then
    toString D ++ "d" ++ toString H ++ "h" ++ toString M ++ "m" ++ toString S ++ "s"
  else if 3600 < secs then toString H ++ "h" ++ toString M ++ "m" ++ toString S ++ "s"
  else if 60 < secs then toString M ++ "m" ++ toString S ++ "s"
  else toString S ++ "s"

/-- One optional component `((\d+?)X)?` of the `strpdelta` regex, where `X`
is the literal `d`, `h` or `m`.  Under backtracking the lazy group succeeds
exactly when a nonempty digit run is followed by the literal, capturing the
whole run; otherwise the optional group matches empty and consumes nothing. -/
def matchComp (lit : Char) (cs : List Char) : Option Nat × List Char :=
  let r := cs.takeWhile Char.isDigit
  let rest := cs.dropWhile Char.isDigit
  if r ≠ [] ∧ rest.head? = some lit then (some (natOfDigits r), rest.tail)
  else (none, cs)

/-- The seconds component `((?P<seconds>\d+?\.?\d+?)s)?` of the `strpdelta`
regex.  The two lazy `\d+?` groups each require at least one digit, so under
backtracking the group matches either a run of at least two digits followed
by `s`, or a nonempty digit run, a dot, a nonempty digit run and `s`.
A single digit followed by `s` does not match.  Returns the integer digits,
the fractional digits value and the fractional digit count. -/
def matchSecondsComp (cs : List Char) : Option (Nat × Nat × Nat) :=
  let r := cs.takeWhile Char.isDigit
  let rest := cs.dropWhile Char.isDigit
  if 2 ≤ r.length ∧ rest.head? = some 's' then some (natOfDigits r, 0, 0)
  else if r ≠ [] ∧ rest.head? = some '.' then
    let r2 := rest.tail.takeWhile Char.isDigit
    let rest2 := rest.tail.dropWhile Char.isDigit
    if r2 ≠ [] ∧ rest2.head? = some 's' then
      some (natOfDigits r, natOfDigits r2, r2.length)
    else none
  else none

/-- `strpdelta` (`src/base/util.py`): matches the component regex against a
prefix of the input.  Since every group is optional the match always
succeeds, so the `ValueError` branch is dead code; absent components
contribute zero.  The captured strings go through `float(...)` into
`timedelta(...)`; this is exact for integer captures, and a fractional
seconds capture contributes its microseconds (exact for up to six fractional
digits, floored beyond, where the binary float conversion also rounds).
Result: total microseconds. -/
def strpdelta (s : String) : Int :=
  let cs0 := s.toList
  let dmatch := matchComp 'd' cs0
  let hmatch := matchComp 'h' dmatch.2
  let mmatch := matchComp 'm' hmatch.2
  let smatch := matchSecondsComp mmatch.2
  let secUs : Nat := match smatch with
    | none => 0
    | some (a, f, l) => a * 1000000 + f * 1000000 / 10 ^ l
  ((dmatch.1.getD 0) * 86400000000 + (hmatch.1.getD 0) * 3600000000 +
    (mmatch.1.getD 0) * 60000000 + secUs : Nat)

/-- C4: the claimed round trip `strpdelta (strffdelta d) = d` fails at the
five-second duration: `strffdelta` prints `5s`, but the seconds group of the
`strpdelta` regex needs at least two digits, so the parse yields the zero
duration.  (For contrast, a two-digit seconds value such as 30s does round
trip.)  Durations are in microseconds. -/
theorem strpdelta_strffdelta_five_seconds :
    strffdelta 5000000 = "5s" ∧ strpdelta "5s" = 0 ∧ (5000000 : Int) ≠ 0 ∧
    strpdelta (strffdelta 30000000) = 30000000 := by
  refine ⟨by rfl, by rfl, by decide, by rfl⟩

/-! ### Python error values

Inductive error payloads for the exceptions the modelled code can raise. -/

inductive PyErr where
  | typeError (msg : String)
  | valueError (msg : String)
  | attributeError (msg : String)
  | indexError
deriving DecidableEq

/-! ### Metadata containers (`src/tecan/data.py`) and their reconciliation
(`src/experiment/data.py`, `CorrectedMetadata.__new__`)

A `GenericMetadata` is a named mapping from field name to value; its concrete
class (`InstrumentMetadata`, `PlateMetadata`, `AssayMetadata` or the base
class itself) is modelled by a kind tag.  Field values are modelled as
strings; the dictionary is an association list with the first binding of a
key authoritative, as in a Python dict.  A reconciled field value is either
the single common value (possibly an absent one, `Option.none`, i.e. the
`None` that `dict.get` supplies) or the ordered list of per-source values. -/

inductive MetaKind where
  | generic | instrument | plate | assay
deriving DecidableEq

structure Meta where
  kind : MetaKind
  fields : List (String × String)
deriving DecidableEq

/-- Reconciled field value: scalar, or ordered list of per-source values. -/
inductive RVal where
  | one (v : Option String)
  | many (vs : List (Option String))
deriving DecidableEq

/-- Dictionary lookup `m.get(k)` on a field list. -/
def lookupF (m : List (String × String)) (k : String) : Option String :=
  (m.find? (fun p => decide (p.1 = k))).map Prod.snd

/-- Dictionary lookup on a reconciled field list. -/
def lookupR (m : List (String × RVal)) (k : String) : Option RVal :=
  (m.find? (fun p => decide (p.1 = k))).map Prod.snd

/-- The class-homogeneity loop of `CorrectedMetadata.__new__`: walk the
sources, raising a `TypeError` on the first element whose concrete class
differs from the running class, which afterwards holds the last class seen.
The `isinstance(m, GenericMetadata)` guard is vacuous in the typed model. -/
def metaKindLoop : Option MetaKind → List Meta → Except PyErr (Option MetaKind)
  | t, [] => .ok t
  | t, m :: rest =>
    if t ≠ none ∧ t ≠ some m.kind then
      .error (.typeError "All metadata must be of the same type")
    else metaKindLoop (some m.kind) rest

/-- The per-key body of the reconciliation loop: the list of `m.get(key)`
values in source order; if the value set is a singleton
(`len(set(...)) == 1`) the single element, else the list. -/
def reconcileOne (old : List (List (String × String))) (k : String) : RVal :=
  match (old.map (fun m => lookupF m k)).dedup with
  | [v] => RVal.one v
  | _ => RVal.many (old.map (fun m => lookupF m k))

/-- The `newmeta` dictionary of `CorrectedMetadata.__new__`: one entry per
key of the union of the sources' key sets (the Python set iteration order is
unspecified; the lookups proved below do not depend on it). -/
def reconciledFields (old : List (List (String × String))) : List (String × RVal) :=
  ((old.map (fun m => m.map Prod.fst)).flatten.dedup).map
    (fun k => (k, reconcileOne old k))

structure Meta2 where
  kind : MetaKind
  fields : List (String × RVal)

/-- `CorrectedMetadata.__new__`: class check, then field reconciliation,
then `metadata_type(newmeta)` — which with an empty source list has
`metadata_type = None` and raises a `TypeError` (`NoneType` not callable). -/
def correctedMetadataNew (ms : List Meta) : Except PyErr Meta2 :=
  match metaKindLoop none ms with
  | .error e => .error e
  | .ok none => .error (.typeError "NoneType object is not callable")
  | .ok (some k) => .ok ⟨k, reconciledFields (ms.map (·.fields))⟩

/-! Supporting lemmas for the reconciliation proofs. -/

theorem dedup_of_const {α} [DecidableEq α] :
    ∀ (l : List α) (v : α), l ≠ [] → (∀ x ∈ l, x = v) → l.dedup = [v] := by
  intro l
  induction l with
  | nil => intro v h _; exact absurd rfl h
  | cons x xs ih =>
    intro v _ hall
    have hx : x = v := hall x (by simp)
    cases xs with
    | nil => simp [hx]
    | cons y ys =>
      have hy : y = v := hall y (by simp)
      have hmem : x ∈ y :: ys := by simp [hx, hy]
      rw [List.dedup_cons_of_mem hmem]
      exact ih v (by simp) (fun z hz => hall z (by simp [hz]))

theorem dedup_ne_singleton {α} [DecidableEq α] {l : List α} {a b : α}
    (ha : a ∈ l) (hb : b ∈ l) (hab : a ≠ b) : ∀ v, l.dedup ≠ [v] := by
  intro v h
  have ha2 : a ∈ l.dedup := List.mem_dedup.mpr ha
  have hb2 : b ∈ l.dedup := List.mem_dedup.mpr hb
  rw [h] at ha2 hb2
  simp at ha2 hb2
  exact hab (ha2.trans hb2.symm)

theorem reconcileOne_eq_one {old : List (List (String × String))} {k : String}
    {v : Option String} (hne : old ≠ []) (hall : ∀ m ∈ old, lookupF m k = v) :
    reconcileOne old k = .one v := by
  have hvs : ∀ x ∈ old.map (fun m => lookupF m k), x = v := by
    intro x hx
    obtain ⟨m, hm, rfl⟩ := List.mem_map.mp hx
    exact hall m hm
  have hne2 : old.map (fun m => lookupF m k) ≠ [] := by
    simpa using hne
  unfold reconcileOne
  rw [dedup_of_const _ v hne2 hvs]

theorem reconcileOne_eq_many {old : List (List (String × String))} {k : String}
    {m₁ m₂ : List (String × String)} (h1 : m₁ ∈ old) (h2 : m₂ ∈ old)
    (hne : lookupF m₁ k ≠ lookupF m₂ k) :
    reconcileOne old k = .many (old.map (fun m => lookupF m k)) := by
  have ha : lookupF m₁ k ∈ old.map (fun m => lookupF m k) :=
    List.mem_map_of_mem _ h1
  have hb : lookupF m₂ k ∈ old.map (fun m => lookupF m k) :=
    List.mem_map_of_mem _ h2
  unfold reconcileOne
  split
  · rename_i heq
    exact absurd heq (dedup_ne_singleton ha hb hne _)
  · rfl

theorem lookup_keys_map {keys : List String} {k : String} (f : String → RVal)
    (hnd : keys.Nodup) (hk : k ∈ keys) :
    lookupR (keys.map (fun k => (k, f k))) k = some (f k) := by
  induction keys with
  | nil => cases hk
  | cons x xs ih =>
    rcases List.mem_cons.mp hk with rfl | hk2
    · simp [lookupR, List.find?]
    · have hx : x ≠ k := by
        rintro rfl
        exact (List.nodup_cons.mp hnd).1 hk2
      simp only [lookupR, List.map_cons, List.find?] at *
      rw [show (decide (x = k)) = false by simpa using hx]
      exact ih (List.nodup_cons.mp hnd).2 hk2

theorem mem_keys_of_lookupF {m : List (String × String)} {k : String}
    {v : String} (h : lookupF m k = some v) : k ∈ m.map Prod.fst := by
  unfold lookupF at h
  obtain ⟨p, hp, _⟩ := Option.map_eq_some'.mp h
  have hpred := List.find?_some hp
  have hp1 : p.1 = k := by simpa using hpred
  exact hp1 ▸ List.mem_map_of_mem Prod.fst (List.mem_of_find?_eq_some hp)

theorem metaKindLoop_some {κ : MetaKind} :
    ∀ {ms : List Meta}, (∀ m ∈ ms, m.kind = κ) →
      metaKindLoop (some κ) ms = .ok (some κ) := by
  intro ms
  induction ms with
  | nil => intro _; rfl
  | cons m rest ih =>
    intro hall
    have hm : m.kind = κ := hall m (by simp)
    unfold metaKindLoop
    rw [if_neg (by simp [hm])]
    rw [hm]
    exact ih (fun x hx => hall x (by simp [hx]))

theorem metaKindLoop_none {ms : List Meta} {κ : MetaKind} (hne : ms ≠ [])
    (hall : ∀ m ∈ ms, m.kind = κ) :
    metaKindLoop none ms = .ok (some κ) := by
  cases ms with
  | nil => exact absurd rfl hne
  | cons m rest =>
    have hm : m.kind = κ := hall m (by simp)
    unfold metaKindLoop
    rw [if_neg (by simp)]
    rw [hm]
    exact metaKindLoop_some (fun x hx => hall x (by simp [hx]))

/-- C3: reconciling N metadata instances of the same kind produces one
instance of that kind in which a field taking the same value in all N
sources maps to that scalar value, while a field on which two sources differ
maps to the ordered list of the N per-source values (position = source
order, absent fields contributing `None`). -/
theorem corrected_metadata_reconcile (ms : List Meta) (κ : MetaKind)
    (hne : ms ≠ []) (hκ : ∀ m ∈ ms, m.kind = κ) :
    ∃ r, correctedMetadataNew ms = .ok r ∧ r.kind = κ ∧
      (∀ k v, (∀ m ∈ ms, lookupF m.fields k = some v) →
        lookupR r.fields k = some (.one (some v))) ∧
      (∀ k, (∃ m₁ ∈ ms, ∃ m₂ ∈ ms, lookupF m₁.fields k ≠ lookupF m₂.fields k) →
        lookupR r.fields k = some (.many (ms.map (fun m => lookupF m.fields k)))) := by
  have hloop := metaKindLoop_none hne hκ
  refine ⟨⟨κ, reconciledFields (ms.map (·.fields))⟩, ?_, rfl, ?_, ?_⟩
  · simp [correctedMetadataNew, hloop]
  · intro k v hall
    have hkmem : k ∈ ((ms.map (·.fields)).map (fun m => m.map Prod.fst)).flatten.dedup := by
      rcases List.exists_mem_of_ne_nil ms hne with ⟨m, hm⟩
      refine List.mem_dedup.mpr (List.mem_flatten.mpr ⟨m.fields.map Prod.fst, ?_, ?_⟩)
      · exact List.mem_map_of_mem _ (List.mem_map_of_mem _ hm)
      · exact mem_keys_of_lookupF (hall m hm)
    have hlk := lookup_keys_map (reconcileOne (ms.map (·.fields)))
      (List.nodup_dedup _) hkmem
    rw [reconciledFields, hlk]
    congr 1
    apply reconcileOne_eq_one (by simpa using hne)
    intro f hf
    obtain ⟨m, hm, rfl⟩ := List.mem_map.mp hf
    exact hall m hm
  · intro k hdiff
    obtain ⟨m₁, hm₁, m₂, hm₂, hne12⟩ := hdiff
    have hkmem : k ∈ ((ms.map (·.fields)).map (fun m => m.map Prod.fst)).flatten.dedup := by
      rcases h1 : lookupF m₁.fields k with _ | v
      · rcases h2 : lookupF m₂.fields k with _ | v
        · exact absurd (h1.trans h2.symm) hne12
        · refine List.mem_dedup.mpr (List.mem_flatten.mpr ⟨m₂.fields.map Prod.fst, ?_, ?_⟩)
          · exact List.mem_map_of_mem _ (List.mem_map_of_mem _ hm₂)
          · exact mem_keys_of_lookupF h2
      · refine List.mem_dedup.mpr (List.mem_flatten.mpr ⟨m₁.fields.map Prod.fst, ?_, ?_⟩)
        · exact List.mem_map_of_mem _ (List.mem_map_of_mem _ hm₁)
        · exact mem_keys_of_lookupF h1
    have hlk := lookup_keys_map (reconcileOne (ms.map (·.fields)))
      (List.nodup_dedup _) hkmem
    rw [reconciledFields, hlk]
    have := reconcileOne_eq_many (List.mem_map_of_mem _ hm₁)
      (List.mem_map_of_mem _ hm₂) hne12
    rw [this]
    simp [List.map_map]

/-- C3 witness: two plate metadata sources agreeing on `mode` and differing
on `gain` reconcile to a scalar `mode` and the ordered `gain` list. -/
theorem corrected_metadata_reconcile_witness :
    ∃ r, correctedMetadataNew
      [⟨.plate, [("mode", "FI"), ("gain", "100")]⟩,
       ⟨.plate, [("mode", "FI"), ("gain", "120")]⟩] = .ok r ∧
      lookupR r.fields "mode" = some (.one (some "FI")) ∧
      lookupR r.fields "gain" = some (.many [some "100", some "120"]) := by
  obtain ⟨r, hok, _, hone, hmany⟩ := corrected_metadata_reconcile
    [⟨.plate, [("mode", "FI"), ("gain", "100")]⟩,
     ⟨.plate, [("mode", "FI"), ("gain", "120")]⟩] .plate (by decide) (by decide)
  refine ⟨r, hok, ?_, ?_⟩
  · exact hone "mode" "FI" (by decide)
  · have := hmany "gain"
      ⟨⟨.plate, [("mode", "FI"), ("gain", "100")]⟩, by simp,
       ⟨.plate, [("mode", "FI"), ("gain", "120")]⟩, by simp, by decide⟩
    simpa using this

/-! ### Well-indexed tables

A DataFrame with a `(row, column)` well index is modelled as an association
list from well coordinates to rows of cells; a cell is `Option ℚ`, with
`none` standing for a missing value (`NaN`).  Columns are aligned by
position, matching the identical column structure of the repeated
measurement sources that the correction engine combines. -/

abbrev Well := String × Nat

abbrev Row := List (Option ℚ)

abbrev Table := List (Well × Row)

/-- The well index of a table (`df.index`). -/
def tableIndex (t : Table) : List Well := t.map Prod.fst

/-- Label lookup `df.loc[w]` on a unique index. -/
def lookupRow (t : Table) (w : Well) : Option Row :=
  match t with
  | [] => none
  | p :: rest => if p.1 = w then some p.2 else lookupRow rest w

/-- `df.drop(labels, errors=ignore)`: remove the rows whose label is in the
given index; labels not present are ignored. -/
def dropRows (t : Table) (idx : List Well) : Table :=
  t.filter (fun p => decide (p.1 ∉ idx))

/-- Cell-wise `DataFrame.update` on two positionally aligned rows: a base
cell is overwritten by the other row's cell exactly when the latter is not
missing; the base row keeps its own shape. -/
def updateCells : Row → Row → Row
  | bs, [] => bs
  | [], _ :: _ => []
  | b :: bs, o :: os =>
    (match o with | some v => some v | none => b) :: updateCells bs os

/-- `base.update(other)`: overwrite the cells of every base row whose label
also appears in `other` with the non-missing cells of the matching row. -/
def updateTable (base other : Table) : Table :=
  base.map (fun p =>
    match lookupRow other p.1 with
    | some r => (p.1, updateCells p.2 r)
    | none => p)

/-- The sort order of `sort_index` on the `(row, column)` well MultiIndex:
lexicographic by row string, then column number. -/
def wellLe (a b : Well) : Prop := a.1 < b.1 ∨ (a.1 = b.1 ∧ a.2 ≤ b.2)

instance : DecidableRel wellLe := fun a b => by
  unfold wellLe
  infer_instance

/-- `wellLe` lifted to table entries. -/
def entryLe (p q : Well × Row) : Prop := wellLe p.1 q.1

instance : DecidableRel entryLe := fun p q => by
  unfold entryLe
  infer_instance

instance : IsTotal (Well × Row) entryLe :=
  ⟨by
    intro a b
    rcases lt_trichotomy a.1.1 b.1.1 with h | h | h
    · exact Or.inl (Or.inl h)
    · rcases Nat.le_total a.1.2 b.1.2 with h2 | h2
      · exact Or.inl (Or.inr ⟨h, h2⟩)
      · exact Or.inr (Or.inr ⟨h.symm, h2⟩)
    · exact Or.inr (Or.inl h)⟩

instance : IsTrans (Well × Row) entryLe :=
  ⟨by
    intro a b c hab hbc
    rcases hab with h1 | ⟨e1, l1⟩ <;> rcases hbc with h2 | ⟨e2, l2⟩
    · exact Or.inl (h1.trans h2)
    · exact Or.inl (lt_of_lt_of_eq h1 e2)
    · exact Or.inl (lt_of_eq_of_lt e1 h2)
    · exact Or.inr ⟨e1.trans e2, l1.trans l2⟩⟩

/-- `df.sort_index()` on a unique well index (insertion sort; the order on a
duplicate-free index is uniquely determined, so stability is immaterial). -/
def sortTable (t : Table) : Table := List.insertionSort entryLe t

/-! ### Assay entities (`src/tecan/data.py`) -/

/-- One column header of the parsed MultiIndex
`(cycle, label, time, temperature)`; times in microseconds. -/
structure ColHead where
  cycle : Int
  label : String
  time : Int
  temperature : ℚ
deriving DecidableEq

/-- A parsed data block: column headers plus the well-indexed value rows
(one cell per column). -/
structure RawData where
  cols : List ColHead
  rows : Table
deriving DecidableEq

/-- The owning plate, reduced to what the back-reference is used for:
`plate.timestamp` (`instrument.session_start`), possibly absent. -/
structure PlateRef where
  timestamp : Option Int
deriving DecidableEq

/-- The state laid down by `AbstractAssay.__init__`: the first column label
as the name, the data with columns reduced to the time level, the
time-indexed cycle and temperature series, the metadata and the optional
owning-plate back-reference. -/
structure AssayData where
  name : String
  times : List Int
  rows : Table
  cycles : List (Int × Int)
  temps : List (Int × ℚ)
  meta : Meta
  plate : Option PlateRef
deriving DecidableEq

def abstractAssayInit (data : RawData) (meta : Meta) (plate : Option PlateRef) :
    AssayData :=
  { name := ((data.cols.map (·.label)).dedup).headD ""
    times := data.cols.map (·.time)
    rows := data.rows
    cycles := data.cols.map (fun c => (c.time, c.cycle))
    temps := data.cols.map (fun c => (c.time, c.temperature))
    meta := meta
    plate := plate }

/-- `TimeSeries.__init__(data, metadata)` forwards to
`AbstractAssay.__init__` without a plate argument, so the back-reference
takes its default `None`. -/
def timeSeriesInit (data : RawData) (meta : Meta) : AssayData :=
  abstractAssayInit data meta none

/-- `SingleAssay(data, metadata)` as constructed by the reader: the plate
argument likewise defaults to `None`. -/
def singleAssayInit (data : RawData) (meta : Meta) : AssayData :=
  abstractAssayInit data meta none

/-- The concrete assay class, chosen structurally by the reader. -/
inductive AssayClass where
  | singleAssay | timeSeries
deriving DecidableEq

structure AssayObj where
  cls : AssayClass
  d : AssayData
deriving DecidableEq

/-- The assay construction of `TecanReader.read` (`src/tecan/io.py`):
`SingleAssay(data, metadata)` for one-column blocks, else
`TimeSeries(data, metadata)` — in both cases without a plate argument. -/
def tecanAssays (blocks : List RawData) (metas : List Meta) : List AssayObj :=
  (blocks.zip metas).map (fun bm =>
    if bm.1.cols.length = 1 then ⟨.singleAssay, singleAssayInit bm.1 bm.2⟩
    else ⟨.timeSeries, timeSeriesInit bm.1 bm.2⟩)

/-! ### Time-keyed access (`TimeSeries.__getitem__`, `TimePoint`) -/

/-- The key types of `TimeSeries.__getitem__` modelled here: positional
integer, `timedelta` (microseconds) and absolute `datetime` (microseconds
since an epoch).  The slice branch returns a `TimeAccessor` and is outside
these key types. -/
inductive TSKey where
  | pos (i : Int)
  | dur (t : Int)
  | stamp (d : Int)

/-- Python list/Index positional indexing, with negative indices counting
from the end and `IndexError` out of range. -/
def pyIndex {α : Type} (l : List α) (i : Int) : Option α :=
  let j := if i < 0 then i + l.length else i
  if 0 ≤ j then l.get? j.toNat else none

/-- A `TimePoint(ts, t)`: a view of the series at time label `t`. -/
structure TimePointM where
  ts : AssayData
  t : Int
deriving DecidableEq

/-- `TimeSeries.__getitem__`: an `int` key is positionally resolved against
`timepoints`; a `datetime` key needs the owning plate and its timestamp,
else `ValueError`; a `timedelta` key is used directly. -/
def getItemTime (ts : AssayData) : TSKey → Except PyErr TimePointM
  | .pos i =>
    match pyIndex ts.times i with
    | some t => .ok ⟨ts, t⟩
    | none => .error .indexError
  | .dur t => .ok ⟨ts, t⟩
  | .stamp d =>
    match ts.plate with
    | some p =>
      match p.timestamp with
      | some s => .ok ⟨ts, d - s⟩
      | none => .error (.valueError "plate timestamp is not set")
    | none => .error (.valueError "plate timestamp is not set")

/-- `TimePoint.data` = `ts.data.loc[:, t]`: per well, the cells of the
columns whose time label equals `t`. -/
def timePointData (tp : TimePointM) : Table :=
  tp.ts.rows.map (fun r =>
    (r.1, ((tp.ts.times.zip r.2).filter (fun c => decide (c.1 = tp.t))).map Prod.snd))

/-! ### Correction engine (`src/experiment/data.py`, `CorrectedAssay`) -/

/-- The class-homogeneity loop of `CorrectedAssay.__new__`: raises
`TypeError` at the first source whose concrete class differs from the
running class; the `isinstance(assay, AbstractAssay)` guard is vacuous in
the typed model. -/
def checkLoop : Option AssayClass → List AssayObj → Except PyErr (Option AssayClass)
  | t, [] => .ok t
  | t, a :: rest =>
    if t ≠ none ∧ t ≠ some a.cls then
      .error (.typeError "All assays must be of the same type")
    else checkLoop (some a.cls) rest

/-- The state of a constructed `CorrectedAssay`: the dynamic subclass (the
common concrete class), the shared source list, the update flag, the not yet
populated combined-data cache (`self._data = None`) and the eagerly
reconciled metadata. -/
structure CorrectedAssayM where
  cls : AssayClass
  assays : List AssayObj
  update : Bool
  dataCache : Option Table
  metadata : Meta2

/-- `CorrectedAssay.__new__` followed by `__init__`: the class check runs
first; with an empty source list the running class stays `None` and
`type(Corrected + assay_type.__name__, ...)` raises an `AttributeError`
on `None`; only then does `__init__` store the sources and eagerly build the
corrected metadata, leaving the data cache empty. -/
def correctedAssayInit (assays : List AssayObj) (update : Bool) :
    Except PyErr CorrectedAssayM :=
  match checkLoop none assays with
  | .error e => .error e
  | .ok none => .error (.attributeError "NoneType object has no attribute __name__")
  | .ok (some c) =>
    match correctedMetadataNew (assays.map (fun a => a.d.meta)) with
    | .error e => .error e
    | .ok m => .ok ⟨c, assays, update, none, m⟩

theorem checkLoop_some_all {c : AssayClass} :
    ∀ {l : List AssayObj} {t : Option AssayClass},
      checkLoop (some c) l = .ok t → ∀ a ∈ l, a.cls = c := by
  intro l
  induction l with
  | nil => intro t _ a ha; cases ha
  | cons x xs ih =>
    intro t h a ha
    unfold checkLoop at h
    by_cases hc : x.cls = c
    · rw [if_neg (by simp [hc])] at h
      rcases List.mem_cons.mp ha with rfl | ha2
      · exact hc
      · exact ih (hc ▸ h) a ha2
    · rw [if_pos (by simp; rintro rfl; exact hc rfl)] at h
      cases h

theorem checkLoop_error_msg :
    ∀ {l : List AssayObj} {t : Option AssayClass} {e : PyErr},
      checkLoop t l = .error e →
      e = .typeError "All assays must be of the same type" := by
  intro l
  induction l with
  | nil => intro t e h; cases h
  | cons x xs ih =>
    intro t e h
    unfold checkLoop at h
    by_cases hc : t ≠ none ∧ t ≠ some x.cls
    · rw [if_pos hc] at h
      cases h
      rfl
    · rw [if_neg hc] at h
      exact ih h

/-- C2: constructing a `CorrectedAssay` from sources of mixed concrete class
fails with the type-mismatch `TypeError` raised by the class-check loop of
`__new__`; constructing it from an empty sequence fails there too (an
`AttributeError` when the dynamic subclass name is built from `None`); and
every successfully constructed instance still has an unpopulated combined
data cache, so no combination work happens at construction time — in the
failing cases in particular, no combined data is ever computed. -/
theorem corrected_assay_ctor_checks :
    (∀ (assays : List AssayObj) (u : Bool) (x y : AssayObj),
        x ∈ assays → y ∈ assays → x.cls ≠ y.cls →
        correctedAssayInit assays u =
          .error (.typeError "All assays must be of the same type")) ∧
    (∀ u : Bool, correctedAssayInit [] u =
        .error (.attributeError "NoneType object has no attribute __name__")) ∧
    (∀ (assays : List AssayObj) (u : Bool) (s : CorrectedAssayM),
        correctedAssayInit assays u = .ok s → s.dataCache = none) := by
  refine ⟨?_, ?_, ?_⟩
  · intro assays u x y hx hy hxy
    rcases h : checkLoop none assays with e | t
    · rw [checkLoop_error_msg h] at h
      unfold correctedAssayInit
      rw [h]
    · exfalso
      cases assays with
      | nil => cases hx
      | cons a rest =>
        have hstep : checkLoop none (a :: rest) = checkLoop (some a.cls) rest := by
          conv_lhs => rw [checkLoop]
          rw [if_neg (by simp)]
        rw [hstep] at h
        have hall := checkLoop_some_all h
        have hxc : x.cls = a.cls := by
          rcases List.mem_cons.mp hx with rfl | hx2
          · rfl
          · exact hall x hx2
        have hyc : y.cls = a.cls := by
          rcases List.mem_cons.mp hy with rfl | hy2
          · rfl
          · exact hall y hy2
        exact hxy (hxc.trans hyc.symm)
  · intro u
    rfl
  · intro assays u s h
    unfold correctedAssayInit at h
    rcases hc : checkLoop none assays with e | t
    · rw [hc] at h; cases h
    · rw [hc] at h
      cases t with
      | none => cases h
      | some c =>
        rcases hm : correctedMetadataNew (assays.map (fun a => a.d.meta)) with e | m
        · rw [hm] at h; cases h
        · rw [hm] at h
          cases h
          rfl

/-- One iteration of the combining loop of `CorrectedAssay._cache_data`:
`self._data = self._data.append(assay.raw.drop(self._data.index,
errors=ignore))`, then, under update mode,
`self._data.update(assay.data)` (for the embedded sources `assay.data` holds
the same table as `assay.raw`). -/
def combineStep (update : Bool) (data a : Table) : Table :=
  let d := data ++ dropRows a (tableIndex data)
  if update then updateTable d a else d

/-- `CorrectedAssay._cache_data`: the first source's full raw table is the
base, each further source is combined in order, and the result is sorted by
well coordinate once at the end (`sort_index`). -/
def cacheData (first : Table) (rest : List Table) (update : Bool) : Table :=
  sortTable (rest.foldl (combineStep update) first)

theorem index_dropRows (t : Table) (idx : List Well) :
    tableIndex (dropRows t idx) =
      (tableIndex t).filter (fun w => decide (w ∉ idx)) := by
  induction t with
  | nil => rfl
  | cons p rest ih =>
    have ih2 := ih
    simp only [dropRows, tableIndex] at ih2
    by_cases hp : p.1 ∈ idx
    · have hf : decide (p.1 ∉ idx) = false := by simpa using hp
      simp only [dropRows, tableIndex, List.filter_cons, List.map_cons, hf,
        Bool.false_eq_true, if_false]
      exact ih2
    · have hf : decide (p.1 ∉ idx) = true := by simpa using hp
      simp only [dropRows, tableIndex, List.filter_cons, List.map_cons, hf,
        if_true]
      rw [ih2]

theorem index_updateTable (b o : Table) :
    tableIndex (updateTable b o) = tableIndex b := by
  unfold updateTable tableIndex
  rw [List.map_map]
  apply List.map_congr_left
  intro p _
  rcases h : lookupRow o p.1 with _ | r <;> simp [h]

theorem lookupRow_eq_some_of_mem {t : Table} {w : Well} {r : Row}
    (hnd : (tableIndex t).Nodup) (hm : (w, r) ∈ t) : lookupRow t w = some r := by
  induction t with
  | nil => cases hm
  | cons p rest ih =>
    rcases List.mem_cons.mp hm with rfl | hm2
    · simp [lookupRow]
    · have hp : p.1 ≠ w := by
        rintro rfl
        have hmem := List.mem_map_of_mem Prod.fst hm2
        exact (List.nodup_cons.mp hnd).1 hmem
      simp only [lookupRow, if_neg hp]
      exact ih (List.nodup_cons.mp hnd).2 hm2

theorem mem_of_lookupRow_eq_some {t : Table} {w : Well} {r : Row}
    (h : lookupRow t w = some r) : (w, r) ∈ t := by
  induction t with
  | nil => cases h
  | cons p rest ih =>
    by_cases hp : p.1 = w
    · simp only [lookupRow, if_pos hp] at h
      cases h
      subst hp
      simp
    · simp only [lookupRow, if_neg hp] at h
      exact List.mem_cons_of_mem _ (ih h)

theorem lookupRow_eq_none_iff {t : Table} {w : Well} :
    lookupRow t w = none ↔ w ∉ tableIndex t := by
  induction t with
  | nil => simp [lookupRow, tableIndex]
  | cons p rest ih =>
    by_cases hp : p.1 = w
    · simp [lookupRow, if_pos hp, tableIndex, hp]
    · simp only [lookupRow, if_neg hp, tableIndex, List.map_cons, List.mem_cons]
      rw [ih]
      unfold tableIndex
      constructor
      · rintro hn (h | h)
        · exact hp h.symm
        · exact hn h
      · intro hn h
        exact hn (Or.inr h)

theorem lookupRow_perm {t u : Table} {w : Well} (hp : t.Perm u)
    (hnd : (tableIndex u).Nodup) : lookupRow t w = lookupRow u w := by
  have hndt : (tableIndex t).Nodup := by
    have : (tableIndex t).Perm (tableIndex u) := hp.map Prod.fst
    exact this.nodup_iff.mpr hnd
  rcases h : lookupRow u w with _ | r
  · rw [lookupRow_eq_none_iff] at h ⊢
    intro hm
    exact h ((hp.map Prod.fst).mem_iff.mp hm)
  · exact lookupRow_eq_some_of_mem hndt (hp.mem_iff.mpr (mem_of_lookupRow_eq_some h))

/-- Sorting a duplicate-free-index table does not change label lookups. -/
theorem lookupRow_sortTable {t : Table} (hnd : (tableIndex t).Nodup) {w : Well} :
    lookupRow (sortTable t) w = lookupRow t w :=
  lookupRow_perm (List.perm_insertionSort entryLe t) hnd

theorem lookupRow_append_left {a : Table} (b : Table) {w : Well} {r : Row}
    (h : lookupRow a w = some r) : lookupRow (a ++ b) w = some r := by
  induction a with
  | nil => cases h
  | cons p rest ih =>
    by_cases hp : p.1 = w
    · simp only [lookupRow, if_pos hp] at h
      simpa [List.cons_append, lookupRow, if_pos hp] using h
    · simp only [lookupRow, if_neg hp] at h
      simpa [List.cons_append, lookupRow, if_neg hp] using ih h

theorem lookupRow_updateTable (d o : Table) (w : Well) :
    lookupRow (updateTable d o) w =
      (lookupRow d w).map (fun r =>
        match lookupRow o w with
        | some ro => updateCells r ro
        | none => r) := by
  induction d with
  | nil => rfl
  | cons p rest ih =>
    by_cases hp : p.1 = w
    · subst hp
      rcases h : lookupRow o p.1 with _ | ro <;>
        simp [updateTable, lookupRow, h] at ih ⊢
    · rcases h : lookupRow o p.1 with _ | ro <;>
        simp only [updateTable, List.map_cons, lookupRow, h, if_neg hp] at ih ⊢ <;>
        exact ih

theorem nodup_index_combined {a b : Table}
    (ha : (tableIndex a).Nodup) (hb : (tableIndex b).Nodup) :
    (tableIndex (a ++ dropRows b (tableIndex a))).Nodup := by
  have : tableIndex (a ++ dropRows b (tableIndex a)) =
      tableIndex a ++ tableIndex (dropRows b (tableIndex a)) := by
    simp [tableIndex]
  rw [this, index_dropRows]
  refine List.Nodup.append ha (hb.filter _) ?_
  intro w hwa hwf
  have := List.of_mem_filter hwf
  simp at this
  exact this hwa

theorem mem_index_combineStep {u : Bool} {d a : Table} {w : Well} :
    w ∈ tableIndex (combineStep u d a) ↔
      w ∈ tableIndex d ∨ w ∈ tableIndex a := by
  have hbase : w ∈ tableIndex (d ++ dropRows a (tableIndex d)) ↔
      w ∈ tableIndex d ∨ w ∈ tableIndex a := by
    rw [show tableIndex (d ++ dropRows a (tableIndex d)) =
        tableIndex d ++ tableIndex (dropRows a (tableIndex d)) by simp [tableIndex],
      index_dropRows]
    simp only [List.mem_append, List.mem_filter, decide_eq_true_eq]
    constructor
    · rintro (h | ⟨h, _⟩)
      · exact Or.inl h
      · exact Or.inr h
    · rintro (h | h)
      · exact Or.inl h
      · by_cases hd : w ∈ tableIndex d
        · exact Or.inl hd
        · exact Or.inr ⟨h, hd⟩
  cases u with
  | false => simpa [combineStep] using hbase
  | true =>
    simpa [combineStep, index_updateTable] using hbase

theorem mem_index_foldl {u : Bool} :
    ∀ (rest : List Table) (d : Table) (w : Well),
      w ∈ tableIndex (rest.foldl (combineStep u) d) ↔
        w ∈ tableIndex d ∨ ∃ t ∈ rest, w ∈ tableIndex t := by
  intro rest
  induction rest with
  | nil => simp
  | cons a as ih =>
    intro d w
    simp only [List.foldl_cons]
    rw [ih]
    rw [mem_index_combineStep]
    constructor
    · rintro ((h | h) | ⟨t, ht, hw⟩)
      · exact Or.inl h
      · exact Or.inr ⟨a, by simp, h⟩
      · exact Or.inr ⟨t, by simp [ht], hw⟩
    · rintro (h | ⟨t, ht, hw⟩)
      · exact Or.inl (Or.inl h)
      · rcases List.mem_cons.mp ht with rfl | ht2
        · exact Or.inl (Or.inr hw)
        · exact Or.inr ⟨t, ht2, hw⟩

theorem updateCells_get :
    ∀ (ra rb : Row) (j : Nat), j < ra.length →
      (∀ v : ℚ, rb.get? j = some (some v) →
        (updateCells ra rb).get? j = some (some v)) ∧
      (rb.get? j = some none → (updateCells ra rb).get? j = ra.get? j) := by
  intro ra
  induction ra with
  | nil =>
    intro rb j h
    exact absurd h (by simp)
  | cons b bs ih =>
    intro rb j h
    cases rb with
    | nil =>
      exact ⟨fun v hv => (nomatch hv), fun hv => (nomatch hv)⟩
    | cons o os =>
      cases j with
      | zero =>
        refine ⟨fun v hv => ?_, fun hv => ?_⟩
        · simp only [List.get?] at hv
          cases hv
          rfl
        · simp only [List.get?] at hv
          cases hv
          rfl
      | succ j =>
        have hj : j < bs.length := by simpa using h
        refine ⟨fun v hv => ?_, fun hv => ?_⟩
        · exact (ih os j hj).1 v (by simpa using hv)
        · exact (ih os j hj).2 (by simpa using hv)

/-- C1: combining assay sources in `CorrectedAssay._cache_data`.  The
combined table (i) is sorted by well coordinate, (ii) covers exactly the
union of the sources' well coverage — the first source's full table, each
later source contributing only wells not already covered — and, for two
sources with duplicate-free well indices: (iii) without update mode the
first source's row survives on every well the first source covers (in
particular on the overlap), while (iv) with update mode the row on an
overlapping well is the first source's row overwritten cell-wise by the
second source's non-missing cells, so (v) wherever the second source has a
value, that value wins, and where it has a missing cell the first source's
cell survives. -/
theorem corrected_assay_combine :
    (∀ (first : Table) (rest : List Table) (u : Bool),
        List.Sorted entryLe (cacheData first rest u)) ∧
    (∀ (first : Table) (rest : List Table) (u : Bool) (w : Well),
        w ∈ tableIndex (cacheData first rest u) ↔
          w ∈ tableIndex first ∨ ∃ t ∈ rest, w ∈ tableIndex t) ∧
    (∀ (a b : Table), (tableIndex a).Nodup → (tableIndex b).Nodup →
        ∀ (w : Well) (ra : Row), lookupRow a w = some ra →
          lookupRow (cacheData a [b] false) w = some ra ∧
          (∀ rb : Row, lookupRow b w = some rb →
            lookupRow (cacheData a [b] true) w = some (updateCells ra rb))) ∧
    (∀ (ra rb : Row) (j : Nat), j < ra.length →
        (∀ v : ℚ, rb.get? j = some (some v) →
          (updateCells ra rb).get? j = some (some v)) ∧
        (rb.get? j = some none →
          (updateCells ra rb).get? j = ra.get? j)) := by
  refine ⟨?_, ?_, ?_, updateCells_get⟩
  · intro first rest u
    exact List.sorted_insertionSort entryLe _
  · intro first rest u w
    have hperm : (cacheData first rest u).Perm (rest.foldl (combineStep u) first) :=
      List.perm_insertionSort entryLe _
    have : w ∈ tableIndex (cacheData first rest u) ↔
        w ∈ tableIndex (rest.foldl (combineStep u) first) :=
      (hperm.map Prod.fst).mem_iff
    rw [this, mem_index_foldl]
  · intro a b ha hb w ra hra
    have hnd := nodup_index_combined ha hb
    constructor
    · have hfold : cacheData a [b] false =
          sortTable (a ++ dropRows b (tableIndex a)) := by
        simp [cacheData, combineStep]
      rw [hfold, lookupRow_sortTable hnd]
      exact lookupRow_append_left _ hra
    · intro rb hrb
      have hndu : (tableIndex (updateTable (a ++ dropRows b (tableIndex a)) b)).Nodup := by
        rw [index_updateTable]
        exact hnd
      have hfold : cacheData a [b] true =
          sortTable (updateTable (a ++ dropRows b (tableIndex a)) b) := by
        simp [cacheData, combineStep]
      rw [hfold, lookupRow_sortTable hndu, lookupRow_updateTable,
        lookupRow_append_left _ hra, hrb]
      rfl

/-- C1 witness: two single-column sources overlapping on well A1; without
update the first source's value 1 survives there, with update the second
source's value 10 wins. -/
theorem corrected_assay_combine_witness :
    lookupRow (cacheData
      [((("A" : String), 1), [some (1 : ℚ)]), ((("B" : String), 2), [some 2])]
      [[((("A" : String), 1), [some 10]), ((("C" : String), 3), [some 30])]]
      false) ("A", 1) = some [some 1] ∧
    lookupRow (cacheData
      [((("A" : String), 1), [some (1 : ℚ)]), ((("B" : String), 2), [some 2])]
      [[((("A" : String), 1), [some 10]), ((("C" : String), 3), [some 30])]]
      true) ("A", 1) = some [some 10] := by
  have h := corrected_assay_combine.2.2.1
    [((("A" : String), 1), [some (1 : ℚ)]), ((("B" : String), 2), [some 2])]
    [((("A" : String), 1), [some 10]), ((("C" : String), 3), [some 30])]
    (by decide) (by decide) ("A", 1) [some 1] (by rfl)
  exact ⟨h.1, h.2 [some 10] (by rfl)⟩

/-- C2 witness: a single-assay source and a time-series source mixed
together are rejected with the type-mismatch error. -/
theorem corrected_assay_ctor_checks_witness :
    correctedAssayInit
      [⟨.singleAssay, ⟨"", [], [], [], [], ⟨.assay, []⟩, none⟩⟩,
       ⟨.timeSeries, ⟨"", [], [], [], [], ⟨.assay, []⟩, none⟩⟩] false =
      .error (.typeError "All assays must be of the same type") := by
  exact corrected_assay_ctor_checks.1 _ false
    ⟨.singleAssay, ⟨"", [], [], [], [], ⟨.assay, []⟩, none⟩⟩
    ⟨.timeSeries, ⟨"", [], [], [], [], ⟨.assay, []⟩, none⟩⟩
    (by simp) (by simp) (by decide)

/-- C7: indexing a `TimeSeries` by a position and by the duration standing
at that position yield `TimePoint`s with equal data: in general
`series[i]` and `series[series.timepoints[i]]` agree for every valid
position, and in particular for time points 0s/30s/60s position 1 agrees
with the parsed duration 30s. -/
theorem timeseries_pos_dur_agree :
    (∀ (ts : AssayData) (i : Nat) (t : Int), ts.times.get? i = some t →
      ∃ tp1 tp2, getItemTime ts (.pos i) = .ok tp1 ∧
        getItemTime ts (.dur t) = .ok tp2 ∧
        timePointData tp1 = timePointData tp2) ∧
    (∀ ts : AssayData, ts.times = [0, 30000000, 60000000] →
      ∃ tp1 tp2, getItemTime ts (.pos 1) = .ok tp1 ∧
        getItemTime ts (.dur (strpdelta "30s")) = .ok tp2 ∧
        timePointData tp1 = timePointData tp2) := by
  have hgen : ∀ (ts : AssayData) (i : Nat) (t : Int), ts.times.get? i = some t →
      ∃ tp1 tp2, getItemTime ts (.pos i) = .ok tp1 ∧
        getItemTime ts (.dur t) = .ok tp2 ∧
        timePointData tp1 = timePointData tp2 := by
    intro ts i t hget
    refine ⟨⟨ts, t⟩, ⟨ts, t⟩, ?_, rfl, rfl⟩
    have hpy : pyIndex ts.times (i : Int) = some t := by
      simp only [pyIndex]
      rw [if_neg (show ¬((i : Int) < 0) by omega)]
      rw [if_pos (show (0 : Int) ≤ (i : Int) by omega)]
      simpa using hget
    simp only [getItemTime, hpy]
  refine ⟨hgen, ?_⟩
  intro ts hts
  have h30 : strpdelta "30s" = 30000000 := by rfl
  rw [h30]
  exact hgen ts 1 30000000 (by rw [hts]; rfl)

/-- C7 witness: a concrete three-point series where position 1 and the
parsed duration 30s select the same data. -/
theorem timeseries_pos_dur_agree_witness :
    ∃ tp1 tp2,
      getItemTime ⟨"Assay", [0, 30000000, 60000000],
        [(("A", 1), [some 1, some 2, some 3])], [], [], ⟨.assay, []⟩, none⟩
        (.pos 1) = .ok tp1 ∧
      getItemTime ⟨"Assay", [0, 30000000, 60000000],
        [(("A", 1), [some 1, some 2, some 3])], [], [], ⟨.assay, []⟩, none⟩
        (.dur (strpdelta "30s")) = .ok tp2 ∧
      timePointData tp1 = timePointData tp2 :=
  timeseries_pos_dur_agree.2
    ⟨"Assay", [0, 30000000, 60000000],
      [(("A", 1), [some 1, some 2, some 3])], [], [], ⟨.assay, []⟩, none⟩ rfl

/-- C10: every `TimeSeries` built through the public constructor — in
particular every assay `TecanReader.read` constructs — carries no
owning-plate back-reference, and therefore indexing it with an absolute
datetime key always raises the `ValueError` about the missing plate
timestamp, whether or not a plate with a timestamp exists elsewhere. -/
theorem timeseries_datetime_valueerror :
    (∀ (data : RawData) (m : Meta), (timeSeriesInit data m).plate = none) ∧
    (∀ (data : RawData) (m : Meta) (d : Int),
        getItemTime (timeSeriesInit data m) (.stamp d) =
          .error (.valueError "plate timestamp is not set")) ∧
    (∀ (blocks : List RawData) (metas : List Meta) (a : AssayObj),
        a ∈ tecanAssays blocks metas → a.d.plate = none) := by
  refine ⟨fun _ _ => rfl, fun _ _ _ => rfl, ?_⟩
  intro blocks metas a ha
  unfold tecanAssays at ha
  obtain ⟨bm, _, rfl⟩ := List.mem_map.mp ha
  by_cases h1 : bm.1.cols.length = 1
  · simp [h1, singleAssayInit, abstractAssayInit]
  · simp [h1, timeSeriesInit, abstractAssayInit]

/-- C10 witness: the single time-series assay built by the reader from one
two-column block has no plate back-reference. -/
theorem timeseries_datetime_valueerror_witness :
    (⟨.timeSeries, timeSeriesInit ⟨[⟨1, "Assay", 0, 37⟩, ⟨2, "Assay", 30000000, 37⟩], []⟩
        ⟨.assay, []⟩⟩ : AssayObj).d.plate = none :=
  timeseries_datetime_valueerror.2.2
    [⟨[⟨1, "Assay", 0, 37⟩, ⟨2, "Assay", 30000000, 37⟩], []⟩] [⟨.assay, []⟩]
    ⟨.timeSeries, timeSeriesInit ⟨[⟨1, "Assay", 0, 37⟩, ⟨2, "Assay", 30000000, 37⟩], []⟩
      ⟨.assay, []⟩⟩ (by decide)

/-! ### Endpoint block parsing (`src/tecan/io.py`, `TecanReader._read_assay`,
marker `<>`) -/

/-- Python str.strip of surrounding whitespace. -/
def pyStrip (cs : List Char) : List Char :=
  ((cs.dropWhile Char.isWhitespace).reverse.dropWhile Char.isWhitespace).reverse

/-- Python str.replace: replace every non-overlapping occurrence of the
pattern, scanning left to right (fuelled structural recursion; the empty
pattern does not occur in the modelled calls). -/
def replaceAux : Nat → List Char → List Char → List Char → List Char
  | 0, cs, _, _ => cs
  | _ + 1, [], _, _ => []
  | fuel + 1, c :: cs, pat, rep =>
    if pat ≠ [] ∧ pat.isPrefixOf (c :: cs) then
      rep ++ replaceAux fuel ((c :: cs).drop pat.length) pat rep
    else c :: replaceAux fuel cs pat rep

def pyReplace (s pat rep : String) : String :=
  (replaceAux s.toList.length s.toList pat.toList rep.toList).asString

/-- The fragment of the float constructor exercised here: surrounding
whitespace stripped, optional sign, integer digits, optional dot and
fractional digits.  Anything else in the string — such as an inner space or
a degree sign — raises `ValueError`, modelled as `none`. -/
def pyFloat (s : String) : Option ℚ :=
  let cs := pyStrip s.toList
  let sgn : Bool × List Char :=
    match cs with
    | '+' :: r => (false, r)
    | '-' :: r => (true, r)
    | r => (false, r)
  let d1 := sgn.2.takeWhile Char.isDigit
  let r1 := sgn.2.dropWhile Char.isDigit
  let signed : ℚ → ℚ := fun v => if sgn.1 then -v else v
  match r1 with
  | [] => if d1 = [] then none else some (signed (natOfDigits d1))
  | '.' :: r2 =>
    let d2 := r2.takeWhile Char.isDigit
    let r3 := r2.dropWhile Char.isDigit
    if r3 = [] ∧ (d1 ≠ [] ∨ d2 ≠ []) then
      some (signed ((natOfDigits d1 : ℚ) + natOfDigits d2 / (10 : ℚ) ^ d2.length))
    else none
  | _ => none

/-- The ambient-temperature extraction of the endpoint branch of
`TecanReader._read_assay`: the header cell with the `Temperature: ` prefix
removed and the unit suffix removed, passed to `float`.  The unit suffix
literal in the source file is a space, the letter Â (a UTF-8-as-Latin-1
mojibake artefact preceding the degree sign), the degree sign and C —
not the plain ` °C`. -/
def readAssayEndpointTemperature (cell : String) : Option ℚ :=
  pyFloat (pyReplace (pyReplace cell "Temperature: " "") " Â°C" "")

/-- The row filter of the endpoint branch:
`str(i).isupper() and len(i) == 1`. -/
def isSingleUpperLabel (s : String) : Bool :=
  s.toList.all Char.isUpper && s.length == 1

/-- The melt of the endpoint grid into one row per (row label, column) pair
carrying a non-missing value, column-major as `DataFrame.melt` emits and
with missing cells dropped (`dropna`). -/
def endpointMelt (colLabels : List Nat) (grid : List (String × List (Option ℚ))) :
    List ((String × Nat) × ℚ) :=
  ((List.range colLabels.length).map (fun j =>
    grid.filterMap (fun r =>
      match colLabels.get? j, r.2.get? j with
      | some c, some (some v) => some ((r.1, c), v)
      | _, _ => none))).flatten

/-- The endpoint (`<>`) branch of `TecanReader._read_assay`: read the
ambient temperature from the block header (aborting the read with
`ValueError` if `float` fails), keep the single-uppercase-letter rows, melt
them, and tag the single resulting column with
(cycle 1, label Assay, time 0, the ambient temperature). -/
def readAssayEndpoint (tempCell : String) (colLabels : List Nat)
    (grid : List (String × List (Option ℚ))) : Except PyErr RawData :=
  match readAssayEndpointTemperature tempCell with
  | none => .error (.valueError "could not convert string to float")
  | some t =>
    .ok { cols := [⟨1, "Assay", 0, t⟩],
          rows := (endpointMelt colLabels
              (grid.filter (fun r => isSingleUpperLabel r.1))).map
            (fun p => (p.1, [some p.2])) }

/-- C8: the claim expects an endpoint block with temperature header
`Temperature: 37 °C` to give every well the temperature tag 37.0, and the
spec presents this as intended behavior; the code however strips the
mojibake suffix (with the stray Â) rather than ` °C`, so on the clean header
`float` receives `37 °C` and raises `ValueError`, producing no block at
all — the claim holds only for the doubly-encoded header
`Temperature: 37 Â°C`, under which every well's single column is tagged
37. -/
theorem endpoint_temperature_header :
    (∀ colLabels grid, readAssayEndpoint "Temperature: 37 °C" colLabels grid =
        .error (.valueError "could not convert string to float")) ∧
    (∀ colLabels grid, ∃ rd,
        readAssayEndpoint "Temperature: 37 Â°C" colLabels grid = .ok rd ∧
        ∀ ch ∈ rd.cols, ch.temperature = 37) := by
  have h1 : readAssayEndpointTemperature "Temperature: 37 °C" = none := by rfl
  have h2 : readAssayEndpointTemperature "Temperature: 37 Â°C" = some 37 := by rfl
  constructor
  · intro cl g
    unfold readAssayEndpoint
    rw [h1]
  · intro cl g
    refine ⟨⟨[⟨1, "Assay", 0, 37⟩],
      (endpointMelt cl (g.filter (fun r => isSingleUpperLabel r.1))).map
        (fun p => (p.1, [some p.2]))⟩, ?_, ?_⟩
    · unfold readAssayEndpoint
      rw [h2]
    · intro ch hch
      simp at hch
      subst hch
      rfl

/-! ### Experiment construction (`src/experiment/data.py`, `Experiment`) -/

/-- A loaded plate, reduced to what `Experiment._verify` reads from it:
`plate.samples.size`, its number of wells. -/
structure PlateM where
  samples : Nat
deriving DecidableEq

/-- The warnings `Experiment._verify` can emit. -/
inductive VWarn where
  | plateCount (nPlates : Nat) (metaMax : Option Int)
  | missingData (k : Int) (pid : Int)
  | missingMetadata (k : Int) (pid : Int)
deriving DecidableEq

/-- `plate_idx.max()`; `none` models the NaN of an empty index, which
compares unequal to any plate count so the mismatch warning still fires. -/
def listMax (l : List Int) : Option Int :=
  l.foldl (fun a x =>
    match a with
    | none => some x
    | some m => some (max m x)) none

/-- The plate-count check of `_verify`:
warn when `len(plates)` differs from the metadata plate-index maximum. -/
def plateCountWarns (n : Nat) (mm : Option Int) : List VWarn :=
  match mm with
  | none => [VWarn.plateCount n none]
  | some m => if (n : Int) ≠ m then [VWarn.plateCount n (some m)] else []

/-- The body of one `_verify` loop iteration: `missingData` when the
metadata names more wells than the plate holds, `missingMetadata` in the
opposite direction. -/
def wellCountWarns (p : PlateM) (nMeta : Nat) (pid : Int) : List VWarn :=
  if (p.samples : Int) < (nMeta : Int) then
    [VWarn.missingData ((nMeta : Int) - p.samples) pid]
  else if (nMeta : Int) < (p.samples : Int) then
    [VWarn.missingMetadata ((p.samples : Int) - nMeta) pid]
  else []

/-- The per-plate loop of `_verify` over the distinct metadata plate ids
(the metadata table here is its plate-id column, one entry per row): for ids
not exceeding the plate count, compare the metadata row count for the id
with `plates[pid - 1].samples.size` — Python indexing, with an `IndexError`
latent for sufficiently negative ids — and warn on either direction of
mismatch. -/
def verifyLoop (plates : List PlateM) (meta : List Int) :
    List Int → Except PyErr (List VWarn)
  | [] => .ok []
  | pid :: rest =>
    if pid ≤ (plates.length : Int) then
      match pyIndex plates (pid - 1) with
      | none => .error .indexError
      | some p =>
        (verifyLoop plates meta rest).map (fun rs =>
          wellCountWarns p (meta.filter (fun q => decide (q = pid))).length pid ++ rs)
    else verifyLoop plates meta rest

/-- `Experiment._verify`: the plate-count warning followed by the per-plate
well-count warnings; nothing but warnings is produced. -/
def verify (plates : List PlateM) (meta : List Int) : Except PyErr (List VWarn) :=
  (verifyLoop plates meta meta.dedup).map
    (fun rs => plateCountWarns plates.length (listMax meta) ++ rs)

structure ExperimentM where
  plates : List PlateM
  metadata : List Int
deriving DecidableEq

/-- `Experiment.__init__`: run `_verify` (which only warns), then store the
plates and the metadata; the stacked-reads cache starts unpopulated. -/
def experimentInit (plates : List PlateM) (meta : List Int) :
    Except PyErr (ExperimentM × List VWarn) :=
  (verify plates meta).map (fun ws => (⟨plates, meta⟩, ws))

theorem verifyLoop_ok {plates : List PlateM} {meta : List Int} :
    ∀ {l : List Int}, (∀ p ∈ l, 1 ≤ p) →
      ∃ ws, verifyLoop plates meta l = .ok ws := by
  intro l
  induction l with
  | nil => exact fun _ => ⟨[], rfl⟩
  | cons pid rest ih =>
    intro h
    obtain ⟨ws, hws⟩ := ih (fun p hp => h p (by simp [hp]))
    have h1 : 1 ≤ pid := h pid (by simp)
    by_cases hle : pid ≤ (plates.length : Int)
    · have hlt : (pid - 1).toNat < plates.length := by omega
      have hpy : pyIndex plates (pid - 1) = some (plates.get ⟨(pid - 1).toNat, hlt⟩) := by
        simp only [pyIndex]
        rw [if_neg (show ¬(pid - 1 < 0) by omega)]
        rw [if_pos (show (0 : Int) ≤ pid - 1 by omega)]
        exact List.get?_eq_get hlt
      refine ⟨wellCountWarns (plates.get ⟨(pid - 1).toNat, hlt⟩)
        (meta.filter (fun q => decide (q = pid))).length pid ++ ws, ?_⟩
      conv_lhs => rw [verifyLoop]
      rw [if_pos hle, hpy, hws]
      rfl
    · refine ⟨ws, ?_⟩
      conv_lhs => rw [verifyLoop]
      rw [if_neg hle]
      exact hws

/-- C9: when every metadata plate id is at least 1 (plates are numbered from
one), `Experiment` construction never fails: `_verify` only emits warnings
and the constructed experiment holds exactly the given plates.  In
particular, with 3 loaded plates and a metadata plate-index maximum of 4 the
plate-count-mismatch warning is emitted and construction still succeeds with
the 3 plates. -/
theorem experiment_mismatch_warns :
    (∀ (plates : List PlateM) (meta : List Int), (∀ p ∈ meta, 1 ≤ p) →
      ∃ ws, experimentInit plates meta = .ok (⟨plates, meta⟩, ws)) ∧
    (∀ (plates : List PlateM) (meta : List Int), (∀ p ∈ meta, 1 ≤ p) →
      plates.length = 3 → listMax meta = some 4 →
      ∃ ws, experimentInit plates meta = .ok (⟨plates, meta⟩, ws) ∧
        VWarn.plateCount 3 (some 4) ∈ ws) := by
  have hgen : ∀ (plates : List PlateM) (meta : List Int), (∀ p ∈ meta, 1 ≤ p) →
      ∃ ws0, experimentInit plates meta =
        .ok (⟨plates, meta⟩,
          plateCountWarns plates.length (listMax meta) ++ ws0) := by
    intro plates meta h
    obtain ⟨ws0, hws0⟩ :=
      @verifyLoop_ok plates meta meta.dedup
        (fun p hp => h p (List.mem_dedup.mp hp))
    refine ⟨ws0, ?_⟩
    unfold experimentInit verify
    rw [hws0]
    rfl
  constructor
  · intro plates meta h
    obtain ⟨ws0, hws0⟩ := hgen plates meta h
    exact ⟨_, hws0⟩
  · intro plates meta h h3 h4
    obtain ⟨ws0, hws0⟩ := hgen plates meta h
    rw [h3, h4] at hws0
    refine ⟨_, hws0, ?_⟩
    have : plateCountWarns 3 (some 4) = [VWarn.plateCount 3 (some 4)] := by decide
    rw [this]
    simp

/-- C9 witness: three plates of four wells each against metadata naming four
plates — construction succeeds, keeps the three plates, and the
plate-count-mismatch warning is among the emitted warnings. -/
theorem experiment_mismatch_warns_witness :
    ∃ ws, experimentInit [⟨4⟩, ⟨4⟩, ⟨4⟩] [1, 2, 3, 4] =
      .ok (⟨[⟨4⟩, ⟨4⟩, ⟨4⟩], [1, 2, 3, 4]⟩, ws) ∧
      VWarn.plateCount 3 (some 4) ∈ ws :=
  experiment_mismatch_warns.2 [⟨4⟩, ⟨4⟩, ⟨4⟩] [1, 2, 3, 4]
    (by decide) (by decide) (by decide)

end PyLucy
